import Mathlib

/-!
Verification of the quote-extraction pipeline of the herodotus-quotes
repository.  The Python sources (src/parser.py, scripts/extract_all_quotes.py)
are shallowly embedded below: strings become Lean strings / character lists,
the regex fragments actually used by the code are translated into explicit
character-list scanners, floats used as confidence weights become rationals,
and the stateful extraction loop becomes an explicit fold over candidate
records.  Every definition follows the corresponding Python function; scanner
recursion uses an explicit fuel argument (always instantiated with the input
length, which each scanner consumes at least one character per step) so that
all definitions compute by kernel reduction.
-/

/-! ## Basic character and string utilities (Python `str` semantics) -/

/-- Python's `\s` class for the ASCII range (space, tab, newline, carriage
return, vertical tab, form feed). -/
def pyIsSpace (c : Char) : Bool :=
  c = ' ' || c = '\t' || c = '\n' || c = '\r' || c = '\x0b' || c = '\x0c'

/-- The regex class `[A-Z]`. -/
def isUpperAZ (c : Char) : Bool := 'A' ≤ c && c ≤ 'Z'

/-- The regex class `[a-z]`. -/
def isLowerAZ (c : Char) : Bool := 'a' ≤ c && c ≤ 'z'

/-- Longest prefix of characters satisfying `p`, together with the rest. -/
def takeRun (p : Char → Bool) : List Char → List Char × List Char
  | [] => ([], [])
  | c :: rest =>
    if p c then
      let r := takeRun p rest
      (c :: r.1, r.2)
    else ([], c :: rest)

/-- Python slice `l[a:b]` on a list (with the usual clamping). -/
def sliceL {α : Type} (l : List α) (a b : Nat) : List α := (l.drop a).take (b - a)

/-- Python `s.strip()` on a character list (whitespace from both ends). -/
def pyStripL (l : List Char) : List Char :=
  ((l.dropWhile pyIsSpace).reverse.dropWhile pyIsSpace).reverse

/-- Python `s.strip()` on a string. -/
def pyStrip (s : String) : String := String.mk (pyStripL s.data)

/-- Python `s.lower()` (ASCII model). -/
def strLower (s : String) : String := String.mk (s.data.map Char.toLower)

/-- Python `s.upper()` (ASCII model). -/
def strUpper (s : String) : String := String.mk (s.data.map Char.toUpper)

/-- Boolean test that `needle` occurs contiguously inside `hay`. -/
def isInfixB (needle : List Char) : List Char → Bool
  | [] => needle.isPrefixOf []
  | c :: rest => needle.isPrefixOf (c :: rest) || isInfixB needle rest

/-- Python `needle in hay` substring test. -/
def containsSub (hay needle : String) : Bool := isInfixB needle.data hay.data

/-- Worker for Python `s.split()`: skip whitespace, take maximal non-space
runs.  Each step consumes at least one character, so the fuel (the input
length) never runs out. -/
def wordsGo : Nat → List Char → List (List Char)
  | 0, _ => []
  | _ + 1, [] => []
  | fuel + 1, c :: rest =>
    if pyIsSpace c then wordsGo fuel rest
    else
      let w := takeRun (fun ch => !(pyIsSpace ch)) (c :: rest)
      w.1 :: wordsGo fuel w.2

/-- Python `s.split()`: split on whitespace runs, dropping empty pieces. -/
def pySplitWs (s : String) : List String :=
  (wordsGo s.data.length s.data).map String.mk

/-- Multiplication of rationals through `mkRat` (definitionally transparent,
unlike the irreducible library multiplication; `qmul_eq_mul` below identifies
the two). -/
def qmul (a b : ℚ) : ℚ := mkRat (a.num * b.num) (a.den * b.den)

/-- Word count of a string, as computed by `len(s.split())` in the source. -/
def wordCount (s : String) : Nat := (pySplitWs s).length

/-! ## Embedding of scripts/extract_all_quotes.py -/

/-- `IGNORE_NAMES` from scripts/extract_all_quotes.py. -/
def IGNORE_NAMES : List String :=
  ["The", "Then", "When", "Thus", "For", "But", "And", "So", "If",
   "Sardis", "Athens", "Sparta", "Hellas", "Egypt", "Persia", "Babylon",
   "Lacedemonians", "Corinthians", "Athenians", "Persians", "Medes",
   "Paionians", "Ionians", "Myrkinos", "Hellespont", "Ionia", "Asia",
   "Europe", "Libya", "Delphi"]

/-- `BLACKLIST` from scripts/extract_all_quotes.py. -/
def BLACKLIST : List String :=
  ["Accordingly", "Being", "De", "He", "She", "They", "It", "Now",
   "Then", "Thus", "Therefore", "Since", "Surely", "What", "With",
   "To", "Didst", "Having", "Unknown", "Deity", "State", "Oracle",
   "Epic", "Poet", "Barbarians", "Hellenes",
   "Here", "There", "But", "For", "If", "When",
   "Upon", "In", "How", "Come"]

/-- The speech-verb alternation `(?:answered|said|spoke|replied|asked)` used by
both the addressee-correction and the caller in extract_all_quotes.py. -/
def speakerVerbs : List String := ["answered", "said", "spoke", "replied", "asked"]

/-- A name is skipped when it is in `IGNORE_NAMES` or `BLACKLIST`. -/
def stoplisted (n : List Char) : Bool :=
  IGNORE_NAMES.contains (String.mk n) || BLACKLIST.contains (String.mk n)

/-- If one of `speakerVerbs` is a literal prefix of `l` (alternatives tried in
catalog order, as the regex engine does), return its length. -/
def vMatchLen (l : List Char) : Option Nat :=
  speakerVerbs.findSome? fun v =>
    if v.data.isPrefixOf l then some v.data.length else none

/-- Match `\s+(?:answered|said|spoke|replied|asked)` at the head of `l`;
returns the remainder after the verb.  Greedy `\s+` is exact because
whitespace and the verbs' first letters are disjoint. -/
def tryVerbTail (l : List Char) : Option (List Char) :=
  let w := takeRun pyIsSpace l
  if w.1 = [] then none
  else
    match vMatchLen w.2 with
    | some len => some (w.2.drop len)
    | none => none

/-- Match `([A-Z][a-z]+)(?:\s+\d+)?\s+(?:answered|said|spoke|replied|asked)`
(with the optional footnote group only when `allowFoot` is true, mirroring the
two regexes in extract_all_quotes.py) at the head of `l`.  Returns the captured
name and the remainder after the whole match.  The regex engine prefers
matching the greedy optional group, so the footnote branch is tried first. -/
def tryNameVerb (allowFoot : Bool) (l : List Char) : Option (List Char × List Char) :=
  match l with
  | [] => none
  | c :: rest =>
    if isUpperAZ c then
      let p := takeRun isLowerAZ rest
      if p.1 = [] then none
      else
        let name := c :: p.1
        let withFoot : Option (List Char) :=
          if allowFoot then
            let w1 := takeRun pyIsSpace p.2
            if w1.1 = [] then none
            else
              let d := takeRun Char.isDigit w1.2
              if d.1 = [] then none else tryVerbTail d.2
          else none
        match withFoot with
        | some r => some (name, r)
        | none =>
          match tryVerbTail p.2 with
          | some r => some (name, r)
          | none => none
    else none

/-- `re.finditer` scan for the name-plus-speech-verb pattern: leftmost
non-overlapping matches, advancing one character on failure.  Fuel-driven;
each step consumes at least one character, so `fuel = l.length` suffices. -/
def scanNVGo (allowFoot : Bool) : Nat → List Char → List (List Char)
  | 0, _ => []
  | _ + 1, [] => []
  | fuel + 1, c :: rest =>
    match tryNameVerb allowFoot (c :: rest) with
    | some pr => pr.1 :: scanNVGo allowFoot fuel pr.2
    | none => scanNVGo allowFoot fuel rest

/-- All captured names of the name-plus-speech-verb pattern, in text order. -/
def scanNameVerb (allowFoot : Bool) (l : List Char) : List (List Char) :=
  scanNVGo allowFoot l.length l

/-- `re.finditer` scan for the bare verb alternation, returning match start
positions in text order. -/
def scanVerbGo : Nat → Nat → List Char → List Nat
  | 0, _, _ => []
  | _ + 1, _, [] => []
  | fuel + 1, pos, c :: rest =>
    match vMatchLen (c :: rest) with
    | some len => pos :: scanVerbGo fuel (pos + len) (rest.drop (len - 1))
    | none => scanVerbGo fuel (pos + 1) rest

/-- Start positions of all verb matches in `l`. -/
def scanVerbs (l : List Char) : List Nat := scanVerbGo l.length 0 l

/-- `re.finditer` scan for `([A-Z][a-z]+)`, returning (start position, word). -/
def scanCapGo : Nat → Nat → List Char → List (Nat × List Char)
  | 0, _, _ => []
  | _ + 1, _, [] => []
  | fuel + 1, pos, c :: rest =>
    if isUpperAZ c then
      let p := takeRun isLowerAZ rest
      if p.1 = [] then scanCapGo fuel (pos + 1) rest
      else (pos, c :: p.1) :: scanCapGo fuel (pos + 1 + p.1.length) p.2
    else scanCapGo fuel (pos + 1) rest

/-- All capitalized words of `l` with their start positions. -/
def scanCapWords (l : List Char) : List (Nat × List Char) := scanCapGo l.length 0 l

/-- The passive-agent check of extract_all_quotes.py: the five characters
before the candidate, lowercased, contain `by` followed by a space. -/
def byPreceded (lookback : List Char) (pos : Nat) : Bool :=
  isInfixB "by ".data ((sliceL lookback (pos - 5) pos).map Char.toLower)

/-- `re.match` of the addressee shape at the start of the quote text:
an uppercase letter, one or more lowercase letters, then a comma and a space.
Returns the captured name. -/
def eaStartName (text : List Char) : Option (List Char) :=
  match text with
  | [] => none
  | c :: rest =>
    if isUpperAZ c then
      let p := takeRun isLowerAZ rest
      if p.1 = [] then none
      else
        match p.2 with
        | ',' :: ' ' :: _ => some (c :: p.1)
        | _ => none
    else none

/-- `resolve_speaker` of scripts/extract_all_quotes.py: when the quote text
starts with an addressee name and a comma, scan the context backwards for the
nearest name immediately followed by a speech verb, skipping stoplisted names,
and otherwise fall back to the already-computed speaker. -/
def eaResolveSpeaker (text ctx current : List Char) : List Char :=
  match eaStartName text with
  | none => current
  | some _ =>
    match (scanNameVerb false ctx).reverse.find? (fun n => !(stoplisted n)) with
    | some n => n
    | none => current

/-- The speaker computation performed by `extract_quotes_from_file` before it
calls `resolve_speaker`: strategy 1/2 (name, optional footnote digits, speech
verb; last valid match wins), then strategy 3 (last verb occurrence, then the
closest previous capitalized word that is not stoplisted and not preceded by
`by`), defaulting to `Unknown`.  The scan runs over the last 300 characters of
the context, and strategy 3 looks back 200 characters before the verb. -/
def eaComputeSpeaker (ctxBefore : List Char) : List Char :=
  let immediate := ctxBefore.drop (ctxBefore.length - 300)
  match (scanNameVerb true immediate).reverse.find? (fun n => !(stoplisted n)) with
  | some n => n
  | none =>
    match (scanVerbs immediate).getLast? with
    | none => "Unknown".data
    | some vs =>
      let lookback := sliceL immediate (vs - 200) vs
      match (scanCapWords lookback).reverse.find?
          (fun pn => !(stoplisted pn.2) && !(byPreceded lookback pn.1)) with
      | some pn => pn.2
      | none => "Unknown".data

/-- The full speaker resolution of extract_all_quotes.py for one candidate:
the caller computes a speaker from the context, then refines it with the
addressee check. -/
def eaFinalSpeaker (text ctx : List Char) : List Char :=
  eaResolveSpeaker text ctx (eaComputeSpeaker ctx)

/-- The cleaned quote text of the spec's addressee-correction example. -/
def c1Text : String := "Cyrus, insatiable of blood as thou art, be not uplifted"

/-- The context-before of the spec's addressee-correction example. -/
def c1Ctx : String := "Tomyris sent a herald to Cyrus and said:"

/-! ## Embedding of src/parser.py: character registry and speaker resolution -/

/-- One record of characters.json: a canonical name and its variations. -/
structure CharEntry where
  name : String
  variations : List String
deriving DecidableEq

/-- `self.characters` as built by `process_character_data`: every canonical
name together with every variation string. -/
def charactersOf (reg : List CharEntry) : List String :=
  reg.flatMap (fun e => e.name :: e.variations)

/-- `self.character_variations.get(resolved, [])`: the variations stored for a
canonical name.  Python dict assignment lets a later duplicate entry
overwrite an earlier one, hence the reversed search. -/
def variationsOf (reg : List CharEntry) (name : String) : List String :=
  match reg.reverse.find? (fun e => e.name == name) with
  | some e => e.variations
  | none => []

/-- `self.speech_indicators` of HerodotusParser (the 18-item list). -/
def speechIndicators : List String :=
  ["said", "spoke", "replied", "answered", "declared",
   "made answer", "addressed", "responded", "called out",
   "cried", "exclaimed", "proclaimed", "told", "asked",
   "commanded", "ordered", "shouted", "stated"]

/-- `any(indicator in context.lower() for indicator in self.speech_indicators)`. -/
def hasIndicator (ctx : String) : Bool :=
  speechIndicators.any (fun ind => containsSub (strLower ctx) ind)

/-- Length of a longest common subsequence, the metric underlying
`fuzz.ratio` (thefuzz computes the InDel similarity
`100 * 2 * lcs / (len1 + len2)`, rounded). -/
def lcsLen : List Char → List Char → Nat
  | [], _ => 0
  | _ :: _, [] => 0
  | a :: as, b :: bs =>
    if a = b then lcsLen as bs + 1
    else max (lcsLen (a :: as) bs) (lcsLen as (b :: bs))

/-- Python `round`: round half to even. -/
def pythonRound (q : ℚ) : ℤ :=
  let f := ⌊q⌋
  let r := q - f
  if r < mkRat 1 2 then f
  else if mkRat 1 2 < r then f + 1
  else if f % 2 = 0 then f else f + 1

/-- `fuzz.ratio` on the 0..100 scale. -/
def fuzzScore (a b : String) : ℤ :=
  if a.length + b.length = 0 then 100
  else pythonRound (mkRat (200 * (lcsLen a.data b.data : ℤ)) (a.length + b.length))

/-- The fuzzy-matching loop of `resolve_speaker`: best canonical name whose
score exceeds 85, the first one reached winning ties (strict improvement is
required to replace the stored best). -/
def bestFuzzy (chars : List String) (speaker : String) : Option String :=
  (chars.foldl
    (fun (acc : Option String × ℤ) cn =>
      let sc := fuzzScore speaker cn
      if 85 < sc ∧ acc.2 < sc then (some cn, sc) else acc)
    (none, 0)).1

/-- The variation branch of `resolve_speaker`: the first registry entry whose
variations contain the token, accepted only when the context has a speech
indicator. -/
def variationResolve (reg : List CharEntry) (speaker ctx : String) : Option String :=
  (reg.find? (fun e => e.variations.contains speaker && hasIndicator ctx)).map
    (fun e => e.name)

/-- `' '.join(ws)`. -/
def joinSpace (ws : List String) : String :=
  String.mk (((ws.map String.data).intersperse " ".data).flatten)

/-- The contextual-clue branch of `resolve_speaker`: the first word of the
context that is a known character and has a speech indicator within the
ten-word window around it. -/
def contextScan (chars : List String) (ctx : String) : Option String :=
  let words := pySplitWs ctx
  ((List.range words.length).find? (fun i =>
      chars.contains (words.getD i "") &&
      hasIndicator (joinSpace (sliceL words (i - 10) (min words.length (i + 10)))))).map
    (fun i => words.getD i "")

/-- `HerodotusParser.resolve_speaker`: direct membership, then fuzzy match,
then context-validated variation, then contextual scan, else unresolved. -/
def resolveSpeaker (reg : List CharEntry) (speaker ctx : String) : Option String :=
  let chars := charactersOf reg
  if speaker ∈ chars then some speaker
  else
    match bestFuzzy chars speaker with
    | some bm => some bm
    | none =>
      match variationResolve reg speaker ctx with
      | some n => some n
      | none => contextScan chars ctx

/-- The speaker-resolution penalty step of `extract_quotes`: ×0.95 when the
raw token is a registered variation of the resolved name, ×0.85 for any other
disagreement, no change when the token already equals the resolved name. -/
def speakerPenalty (reg : List CharEntry) (raw resolved : String) (conf : ℚ) : ℚ :=
  if raw ≠ resolved then
    if raw ∈ variationsOf reg resolved then qmul conf (mkRat 19 20)
    else qmul conf (mkRat 17 20)
  else conf

/-- The strong-dialogue-indicator boost of `extract_quotes` (×1.1, written as
11/10). -/
def dialogueBoost (ctxBefore : String) (conf : ℚ) : ℚ :=
  if (["answered", "replied", "made answer"].any
      (fun ind => containsSub (strLower ctxBefore) ind)) then qmul conf (mkRat 11 10)
  else conf

/-! ## Embedding of `clean_quote` and `is_valid_quote` -/

/-- One pass of `re.sub` removing bracketed reference numbers: at an opening
bracket followed by one or more digits and a closing bracket the whole match
is dropped, otherwise the character is kept. -/
def stripRefsGo : Nat → List Char → List Char
  | 0, l => l
  | _ + 1, [] => []
  | fuel + 1, c :: rest =>
    if c = '[' then
      let d := takeRun Char.isDigit rest
      match d.1, d.2 with
      | _ :: _, ']' :: r3 => stripRefsGo fuel r3
      | _, _ => c :: stripRefsGo fuel rest
    else c :: stripRefsGo fuel rest

/-- Remainder after the first closing parenthesis, if one exists. -/
def spanToClose : List Char → Option (List Char)
  | [] => none
  | c :: rest => if c = ')' then some rest else spanToClose rest

/-- One pass of `re.sub` removing parentheticals: an opening parenthesis
matches through the first closing one (the regex body excludes closing
parentheses), or is kept when the text never closes it. -/
def stripParensGo : Nat → List Char → List Char
  | 0, l => l
  | _ + 1, [] => []
  | fuel + 1, c :: rest =>
    if c = '(' then
      match spanToClose rest with
      | some r3 => stripParensGo fuel r3
      | none => c :: stripParensGo fuel rest
    else c :: stripParensGo fuel rest

/-- `re.sub` collapsing whitespace runs to a single space. -/
def collapseWsGo : Nat → List Char → List Char
  | 0, l => l
  | _ + 1, [] => []
  | fuel + 1, c :: rest =>
    if pyIsSpace c then ' ' :: collapseWsGo fuel (rest.dropWhile pyIsSpace)
    else c :: collapseWsGo fuel rest

/-- The character set of the final `strip` of `clean_quote`: double quote,
single quote, space, and square brackets. -/
def quoteStripSet : List Char := ['"', Char.ofNat 39, ' ', '[', ']']

/-- Strip the `clean_quote` punctuation set from both ends. -/
def stripEnds (l : List Char) : List Char :=
  ((l.dropWhile (fun c => quoteStripSet.contains c)).reverse.dropWhile
      (fun c => quoteStripSet.contains c)).reverse

/-- `HerodotusParser.clean_quote`. -/
def cleanQuote (s : String) : String :=
  let l1 := stripRefsGo s.data.length s.data
  let l2 := stripParensGo l1.length l1
  let l3 := collapseWsGo l2.length l2
  String.mk (stripEnds l3)

/-- Python `str.isupper` (ASCII model): has an uppercase letter and no
lowercase letter. -/
def pyIsUpperStr (s : String) : Bool :=
  s.data.any Char.isUpper && !(s.data.any Char.isLower)

/-- `re.match` of the editorial-note shape: leading digits followed by a dot,
or a leading bracket or parenthesis. -/
def startsEditorial (s : String) : Bool :=
  match s.data with
  | [] => false
  | c :: rest =>
    c = '[' || c = '(' ||
    (c.isDigit &&
      (match (takeRun Char.isDigit rest).2 with
       | '.' :: _ => true
       | _ => false))

/-- The fixed editorial markers checked against the uppercased text. -/
def editorialMarkers : List String := ["NOTE:", "BOOK", "CHAPTER", "MS", "MSS"]

/-- `any(marker in quote.upper() for marker in ...)`. -/
def containsMarker (q : String) : Bool :=
  editorialMarkers.any (fun m => containsSub (strUpper q) m)

/-- The strong positive indicator words of `is_valid_quote`. -/
def strongQuoteWords : List String :=
  ["thus", "spoke", "said", "replied", "answered", "declared", "commanded", "asked"]

/-- `any(indicator in quote.lower() for indicator in ...)`. -/
def hasStrongWord (q : String) : Bool :=
  strongQuoteWords.any (fun w => containsSub (strLower q) w)

/-- Sentence separators of `re.split` in `is_valid_quote`. -/
def isSentSep (c : Char) : Bool := c = '.' || c = '!' || c = '?'

/-- `re.split` on runs of sentence separators (keeps empty pieces, like
Python). -/
def splitSentGo : Nat → List Char → List Char → List (List Char)
  | 0, acc, l => [acc.reverse ++ l]
  | _ + 1, acc, [] => [acc.reverse]
  | fuel + 1, acc, c :: rest =>
    if isSentSep c then acc.reverse :: splitSentGo fuel [] (rest.dropWhile isSentSep)
    else splitSentGo fuel (c :: acc) rest

/-- The sentence pieces of a quotation. -/
def splitSentences (s : String) : List (List Char) := splitSentGo s.data.length [] s.data

/-- Word count of a character-list sentence piece. -/
def wordCountL (l : List Char) : Nat := wordCount (String.mk l)

/-- The sentence-completeness test: more than half of the pieces have at
least three words. -/
def sentenceComplete (q : String) : Bool :=
  let sents := splitSentences q
  let comp := sents.filter (fun s => 3 ≤ wordCountL s)
  decide (mkRat comp.length sents.length > mkRat 1 2)

/-- `HerodotusParser.is_valid_quote`. -/
def isValidQuote (q : String) : Bool :=
  if wordCount q < 4 then false
  else if pyIsUpperStr q || !(q.data.count '[' = q.data.count ']') then false
  else if startsEditorial q then false
  else if containsMarker q then false
  else if hasStrongWord q then true
  else if sentenceComplete q then true
  else decide (4 ≤ wordCount q)

/-! ## Embedding of the pattern catalog (`get_delayed_attribution_patterns`) -/

/-- The delayed-attribution catalog of `get_delayed_attribution_patterns`:
pattern names with their base confidence weights, in source order (the regex
texts themselves play no role in the claims about the catalog). -/
def delayedAttributionCatalog : List (String × ℚ) :=
  [("delayed_attribution_action", mkRat 85 100),
   ("delayed_attribution_state", mkRat 82 100),
   ("delayed_attribution_temporal", mkRat 80 100),
   ("delayed_indirect_speech", mkRat 78 100),
   ("group_dialogue", mkRat 75 100),
   ("delayed_attribution_basic", mkRat 75 100),
   ("conversation_marker", mkRat 80 100),
   ("response_pattern", mkRat 85 100)]

/-- `delayed_patterns.get(pattern_name, 0.75)`. -/
def delayedLookup (name : String) : ℚ :=
  match delayedAttributionCatalog.find? (fun p => p.1 == name) with
  | some p => p.2
  | none => mkRat 75 100

/-- The pattern-based confidence assignment of `extract_quotes`: only names
beginning with `delayed_attribution` consult the catalog; the three adjacent
named tiers get fixed weights (1.0, 0.95, 0.80); every other pattern keeps
the default 1.0. -/
def patternConfidence (name : String) : ℚ :=
  if "delayed_attribution".data.isPrefixOf name.data then delayedLookup name
  else if name = "basic_quote" then 1
  else if name = "split_quote" then mkRat 95 100
  else if name = "quote_first" then mkRat 80 100
  else 1

/-! ## Embedding of the Quote record, the deduplicator and the extraction loop -/

/-- The `Quote` dataclass. -/
structure Quote where
  speaker : String
  text : String
  book : String
  context_before : String
  context_after : String
  pattern_matched : String
  confidence : ℚ
deriving DecidableEq

/-- A raw pattern-match candidate: pattern name, captured speaker token,
captured quotation text, and the two context windows.  This is the data
`extract_quotes` has in hand after regex matching and group selection, before
cleaning, validation, resolution, scoring and deduplication. -/
structure Candidate where
  patternName : String
  rawSpeaker : String
  rawQuote : String
  ctxBefore : String
  ctxAfter : String
deriving DecidableEq

/-- The deduplicator's `seen_quotes` dict: an association list from cleaned
text keys to the stored Quote, with Python-dict key uniqueness and insertion
order. -/
abbrev DState := List (String × Quote)

/-- Python dict lookup. -/
def dlookup : DState → String → Option Quote
  | [], _ => none
  | (k, v) :: rest, key => if k = key then some v else dlookup rest key

/-- Python dict assignment: overwrite in place, else append. -/
def dinsert : DState → String → Quote → DState
  | [], key, q => [(key, q)]
  | (k, v) :: rest, key, q =>
    if k = key then (k, q) :: rest else (k, v) :: dinsert rest key q

/-- Python `dict.values()` in insertion order. -/
def dvalues (st : DState) : List Quote := st.map Prod.snd

/-- `QuoteDeduplicator.is_duplicate`, returning the verdict and the updated
`seen_quotes` state. -/
def isDuplicate (st : DState) (q : Quote) : Bool × DState :=
  let key := pyStrip q.text
  match dlookup st key with
  | some ex =>
    if ex.speaker = q.speaker ∧ ex.book = q.book then (true, st)
    else if ex.book = q.book then
      if q.confidence < ex.confidence then (true, st)
      else (false, dinsert st key q)
    else (false, st)
  | none => (false, dinsert st key q)

/-- The mutable state of `extract_quotes` across candidates: the per-book
`seen_quotes` set of (resolved speaker, cleaned text) pairs, the global
deduplicator dict, and the global `self.quotes` output list. -/
structure PState where
  seen : List (String × String)
  dst : DState
  out : List Quote
deriving DecidableEq

/-- The confidence of a candidate after pattern weight, resolution penalty and
dialogue boost, in the order the source applies them. -/
def candConfidence (reg : List CharEntry) (c : Candidate) (rs : String) : ℚ :=
  dialogueBoost c.ctxBefore (speakerPenalty reg c.rawSpeaker rs (patternConfidence c.patternName))

/-- The Quote record `extract_quotes` builds for an accepted candidate. -/
def mkQuote (reg : List CharEntry) (B : String) (c : Candidate) (rs : String) : Quote :=
  ⟨rs, cleanQuote c.rawQuote, B, c.ctxBefore, c.ctxAfter, c.patternName,
   candConfidence reg c rs⟩

/-- Processing of one candidate by `extract_quotes`: clean, validate, resolve
the speaker, skip exact per-book repeats, score, consult the deduplicator, and
append to the output on success. -/
def pstep (reg : List CharEntry) (B : String) (st : PState) (c : Candidate) : PState :=
  if isValidQuote (cleanQuote c.rawQuote) then
    match resolveSpeaker reg c.rawSpeaker c.ctxBefore with
    | none => st
    | some rs =>
      if (rs, cleanQuote c.rawQuote) ∈ st.seen then st
      else
        if (isDuplicate st.dst (mkQuote reg B c rs)).1 then
          ⟨st.seen, (isDuplicate st.dst (mkQuote reg B c rs)).2, st.out⟩
        else
          ⟨(rs, cleanQuote c.rawQuote) :: st.seen,
           (isDuplicate st.dst (mkQuote reg B c rs)).2,
           st.out ++ [mkQuote reg B c rs]⟩
  else st

/-- `process_books`: each book is processed once with a fresh per-book seen
set, while the deduplicator dict and the output list persist across books. -/
def runBooks (reg : List CharEntry) :
    List (String × List Candidate) → DState → List Quote → List Quote
  | [], _, out => out
  | (B, cs) :: rest, dst, out =>
    let st := cs.foldl (pstep reg B) ⟨[], dst, out⟩
    runBooks reg rest st.dst st.out

/-- The final emitted quote list of one whole processing run. -/
def processBooks (reg : List CharEntry) (books : List (String × List Candidate)) :
    List Quote :=
  runBooks reg books [] []

/-! ## Embedding of `_merge_split_quotes` -/

/-- Python two-argument `min` on strings (lexicographic). -/
def pyMinStr (a b : String) : String := if b < a then b else a

/-- Python two-argument `max` on strings (lexicographic). -/
def pyMaxStr (a b : String) : String := if a < b then b else a

/-- The merged Quote built by `_merge_split_quotes` from the stored quote `e`
and the incoming fragment `q`. -/
def mergedOf (e q : Quote) : Quote :=
  ⟨q.speaker, e.text ++ "\n\n" ++ q.text, q.book,
   pyMinStr e.context_before q.context_before,
   pyMaxStr e.context_after q.context_after,
   q.pattern_matched, max e.confidence q.confidence⟩

/-- `_merge_split_quotes`: only the first stored quote is examined (the loop
returns on its first iteration either way); on a speaker/book match with
context lengths within 1000 characters the merged quote is stored under its
own concatenated text as key. -/
def mergeSplitQuotes (st : DState) (q : Quote) : Bool × DState :=
  match st with
  | [] => (false, st)
  | (_, e) :: _ =>
    if e.speaker = q.speaker ∧ e.book = q.book ∧
        ((e.context_before.length : ℤ) - (q.context_before.length : ℤ)).natAbs < 1000 then
      let m := mergedOf e q
      (true, dinsert st m.text m)
    else (false, st)

/-! ## Embedding of `split_into_books` -/

/-- The `Book` dataclass. -/
structure BookRec where
  number : String
  content : String
  title : String
deriving DecidableEq

/-- A regex match of the book-header pattern: captured numeral, captured
title, match start position. -/
abbrev HeaderMatch := String × String × Nat

/-- Stable insertion into a position-sorted list. -/
def insertByPos (x : HeaderMatch) : List HeaderMatch → List HeaderMatch
  | [] => [x]
  | y :: rest => if y.2.2 < x.2.2 then y :: insertByPos x rest else x :: y :: rest

/-- `book_positions.sort(key=lambda x: x[2])`. -/
def sortByPos (l : List HeaderMatch) : List HeaderMatch := l.foldr insertByPos []

/-- Python slice `text[a:b]` on a string. -/
def strSlice (text : String) (a b : Nat) : String := String.mk (sliceL text.data a b)

/-- The slicing loop of `split_into_books`: each book's content runs from its
header to the next header (or the end of the text), stripped. -/
def buildBooks (text : String) : List HeaderMatch → List (String × BookRec)
  | [] => []
  | (num, title, pos) :: rest =>
    let endPos := match rest with
      | [] => text.length
      | (_, _, p) :: _ => p
    (num, ⟨num, pyStrip (strSlice text pos endPos), title⟩) :: buildBooks text rest

/-- Python dict assignment for an arbitrary value type. -/
def ainsert {α : Type} : List (String × α) → String → α → List (String × α)
  | [], key, v => [(key, v)]
  | (k, w) :: rest, key, v =>
    if k = key then (k, v) :: rest else (k, w) :: ainsert rest key v

/-- `HerodotusParser.split_into_books`, given the list of header matches the
regex finds in the text.  The Python body raises only by re-raising an
exception from within; no statement raises on an empty match list, so the
embedding returns on every input. -/
def splitBooks (text : String) (ms : List HeaderMatch) :
    Except String (List (String × BookRec)) :=
  Except.ok ((buildBooks text (sortByPos ms)).foldl (fun acc p => ainsert acc p.1 p.2) [])

/-! ## Concrete sample data used by counterexamples and witnesses -/

/-- A small character registry: two canonical names with one variation. -/
def sampleReg : List CharEntry :=
  [⟨"Croesus", ["Kroisos"]⟩, ⟨"Solon", []⟩, ⟨"Tomyris", []⟩]

/-- A shared quotation text for the attribution-conflict scenario. -/
def conflictText : String := "No man may be counted happy before the end"

/-- First conflict candidate: quote-first pattern, speaker Croesus
(pattern weight 0.80). -/
def c2candA : Candidate := ⟨"quote_first", "Croesus", conflictText, "", ""⟩

/-- Second conflict candidate: basic-quote pattern, speaker Solon
(pattern weight 1.0). -/
def c2candB : Candidate := ⟨"basic_quote", "Solon", conflictText, "", ""⟩

/-- The Quote emitted for the first conflict candidate. -/
def c2quoteA : Quote :=
  ⟨"Croesus", conflictText, "I", "", "", "quote_first", mkRat 80 100⟩

/-- The Quote emitted for the second conflict candidate. -/
def c2quoteB : Quote := ⟨"Solon", conflictText, "I", "", "", "basic_quote", 1⟩

/-- The extraction state right after the first conflict candidate has been
emitted. -/
def c2state : PState :=
  ⟨[("Croesus", conflictText)], [(conflictText, c2quoteA)], [c2quoteA]⟩

/-- A candidate whose cleaned text starts with a lowercase letter yet passes
every check of `is_valid_quote`. -/
def c5cand : Candidate :=
  ⟨"basic_quote", "Croesus", "and so they went away happily", "", ""⟩

/-- The emitted Quote of the lowercase-start candidate. -/
def c5quote : Quote :=
  ⟨"Croesus", "and so they went away happily", "I", "", "", "basic_quote", 1⟩

/-- A candidate repeated verbatim in two different books. -/
def c6cand : Candidate :=
  ⟨"basic_quote", "Solon", "Call no man happy until he is dead", "", ""⟩

/-- The cross-book scenario: the same candidate in Book I and Book II. -/
def c6books : List (String × List Candidate) :=
  [("I", [c6cand]), ("II", [c6cand])]

/-- The Quote the cross-book scenario emits for Book I. -/
def c6quoteI : Quote :=
  ⟨"Solon", "Call no man happy until he is dead", "I", "", "", "basic_quote", 1⟩

/-- The Quote the cross-book scenario emits for Book II. -/
def c6quoteII : Quote :=
  ⟨"Solon", "Call no man happy until he is dead", "II", "", "", "basic_quote", 1⟩

/-- A stored quote for the merge scenario. -/
def c8stored : Quote :=
  ⟨"Croesus", "First part of the speech", "I", "before one", "after one",
   "basic_quote", mkRat 80 100⟩

/-- The continuation fragment merged into `c8stored`. -/
def c8frag : Quote :=
  ⟨"Croesus", "Second part of the speech", "I", "before two", "after two",
   "then_thus", 1⟩

/-- A stored quote for the equal-confidence conflict scenario (same
confidence as the basic-quote candidate that follows it). -/
def c10stored : Quote := ⟨"Croesus", conflictText, "I", "", "", "basic_quote", 1⟩

/-- The extraction state holding `c10stored` as already emitted. -/
def c10state : PState := ⟨[], [(conflictText, c10stored)], [c10stored]⟩

/-- Distinctness of the (speaker, text, book) triple: the relation the final
emitted set is pairwise-distinct under. -/
abbrev PDist (a b : Quote) : Prop :=
  ¬(a.speaker = b.speaker ∧ a.text = b.text ∧ a.book = b.book)

/-! ## Helper lemmas -/

theorem qmul_eq_mul (a b : ℚ) : qmul a b = a * b := by
  unfold qmul
  rw [Rat.mkRat_eq_div, Int.cast_mul, Nat.cast_mul, ← div_mul_div_comm,
    Rat.num_div_den, Rat.num_div_den]

/-- Every canonical name of the registry is in the combined character set. -/
theorem name_mem_charactersOf {reg : List CharEntry} {e : CharEntry} (he : e ∈ reg) :
    e.name ∈ charactersOf reg :=
  List.mem_flatMap.mpr ⟨e, he, List.mem_cons_self _ _⟩

/-- Every registered variation is in the combined character set. -/
theorem variation_mem_charactersOf {reg : List CharEntry} {e : CharEntry} {v : String}
    (he : e ∈ reg) (hv : v ∈ e.variations) : v ∈ charactersOf reg :=
  List.mem_flatMap.mpr ⟨e, he, List.mem_cons_of_mem _ hv⟩

/-- The three possible outcomes of one candidate step: the state is unchanged,
only the deduplicator dict changes, or a valid quote for the current book is
emitted and its (speaker, text) pair is recorded as seen. -/
theorem pstep_shape (reg : List CharEntry) (B : String) (st : PState) (c : Candidate) :
    pstep reg B st c = st ∨
    (∃ d : DState, pstep reg B st c = ⟨st.seen, d, st.out⟩) ∨
    (∃ q : Quote, q.book = B ∧ isValidQuote q.text = true ∧
      (q.speaker, q.text) ∉ st.seen ∧
      ∃ d : DState, pstep reg B st c = ⟨(q.speaker, q.text) :: st.seen, d, st.out ++ [q]⟩) := by
  unfold pstep
  by_cases hv : isValidQuote (cleanQuote c.rawQuote)
  · rw [if_pos hv]
    cases hr : resolveSpeaker reg c.rawSpeaker c.ctxBefore with
    | none => exact Or.inl rfl
    | some rs =>
      dsimp only
      by_cases hs : (rs, cleanQuote c.rawQuote) ∈ st.seen
      · rw [if_pos hs]
        exact Or.inl rfl
      · rw [if_neg hs]
        by_cases hd : (isDuplicate st.dst (mkQuote reg B c rs)).1
        · rw [if_pos hd]
          exact Or.inr (Or.inl ⟨_, rfl⟩)
        · rw [if_neg hd]
          exact Or.inr (Or.inr ⟨mkQuote reg B c rs, rfl, hv, hs, _, rfl⟩)
  · rw [if_neg hv]
    exact Or.inl rfl

/-- One candidate step preserves validity of all emitted texts. -/
theorem pstep_valid (reg : List CharEntry) (B : String) (st : PState) (c : Candidate)
    (h : ∀ q ∈ st.out, isValidQuote q.text = true) :
    ∀ q ∈ (pstep reg B st c).out, isValidQuote q.text = true := by
  rcases pstep_shape reg B st c with hE | ⟨d, hE⟩ | ⟨q', _, hqv, _, d, hE⟩ <;> rw [hE]
  · exact h
  · exact h
  · intro q hq
    rcases List.mem_append.mp hq with hq | hq
    · exact h q hq
    · rw [List.mem_singleton.mp hq]
      exact hqv

/-- The candidate fold preserves validity of all emitted texts. -/
theorem fold_valid (reg : List CharEntry) (B : String) (cands : List Candidate) :
    ∀ (st : PState), (∀ q ∈ st.out, isValidQuote q.text = true) →
      ∀ q ∈ (cands.foldl (pstep reg B) st).out, isValidQuote q.text = true := by
  induction cands with
  | nil => intro st h; exact h
  | cons c cs ih =>
    intro st h
    exact ih (pstep reg B st c) (pstep_valid reg B st c h)

/-- `process_books` preserves validity of all emitted texts. -/
theorem runBooks_valid (reg : List CharEntry) (bs : List (String × List Candidate)) :
    ∀ (dst : DState) (out : List Quote), (∀ q ∈ out, isValidQuote q.text = true) →
      ∀ q ∈ runBooks reg bs dst out, isValidQuote q.text = true := by
  induction bs with
  | nil => intro dst out h; exact h
  | cons b rest ih =>
    obtain ⟨B, cs⟩ := b
    intro dst out h
    exact ih _ _ (fold_valid reg B cs ⟨[], dst, out⟩ h)

/-- One candidate step preserves pairwise-distinct triples, the coverage of
this book's emissions by the seen set, and the origin of every emitted quote. -/
theorem pstep_inv (reg : List CharEntry) (B : String) (st : PState) (c : Candidate)
    (h1 : st.out.Pairwise PDist)
    (h2 : ∀ q ∈ st.out, q.book = B → (q.speaker, q.text) ∈ st.seen) :
    ((pstep reg B st c).out.Pairwise PDist)
    ∧ (∀ q ∈ (pstep reg B st c).out, q.book = B →
        (q.speaker, q.text) ∈ (pstep reg B st c).seen)
    ∧ (∀ q ∈ (pstep reg B st c).out, q ∈ st.out ∨ q.book = B) := by
  rcases pstep_shape reg B st c with hE | ⟨d, hE⟩ | ⟨q', hqB, _, hqs, d, hE⟩ <;> rw [hE]
  · exact ⟨h1, h2, fun q hq => Or.inl hq⟩
  · exact ⟨h1, h2, fun q hq => Or.inl hq⟩
  · refine ⟨?_, ?_, ?_⟩
    · rw [List.pairwise_append]
      refine ⟨h1, List.pairwise_singleton _ _, ?_⟩
      intro a ha b hb
      rw [List.mem_singleton.mp hb]
      rintro ⟨hsp, htx, hbk⟩
      have hmem : (a.speaker, a.text) ∈ st.seen := h2 a ha (by rw [hbk, hqB])
      rw [hsp, htx] at hmem
      exact hqs hmem
    · intro q hq hbk
      rcases List.mem_append.mp hq with hq | hq
      · exact List.mem_cons_of_mem _ (h2 q hq hbk)
      · rw [List.mem_singleton.mp hq]
        exact List.mem_cons_self _ _
    · intro q hq
      rcases List.mem_append.mp hq with hq | hq
      · exact Or.inl hq
      · rw [List.mem_singleton.mp hq]
        exact Or.inr hqB

set_option maxHeartbeats 1000000

/-- The candidate fold preserves the distinctness invariants. -/
theorem fold_inv (reg : List CharEntry) (B : String) (cands : List Candidate) :
    ∀ (st : PState), st.out.Pairwise PDist →
      (∀ q ∈ st.out, q.book = B → (q.speaker, q.text) ∈ st.seen) →
      ((cands.foldl (pstep reg B) st).out.Pairwise PDist)
      ∧ (∀ q ∈ (cands.foldl (pstep reg B) st).out, q ∈ st.out ∨ q.book = B) := by
  induction cands with
  | nil => intro st h1 h2; exact ⟨h1, fun q hq => Or.inl hq⟩
  | cons c cs ih =>
    intro st h1 h2
    obtain ⟨g1, g2, g3⟩ := pstep_inv reg B st c h1 h2
    obtain ⟨r1, r2⟩ := ih (pstep reg B st c) g1 g2
    refine ⟨r1, fun q hq => ?_⟩
    rcases r2 q hq with h | h
    · exact g3 q h
    · exact Or.inr h

/-- `process_books` keeps the emitted set pairwise distinct on the
(speaker, text, book) triple, provided the processed book identifiers are
distinct (as they are in `process_books`, which walks the distinct Roman
numerals of a dict keyed by numeral). -/
theorem runBooks_pairwise (reg : List CharEntry) (bs : List (String × List Candidate)) :
    ∀ (dst : DState) (out : List Quote) (processed : List String),
      out.Pairwise PDist →
      (∀ q ∈ out, q.book ∈ processed) →
      (∀ b ∈ bs, b.1 ∉ processed) →
      ((bs.map Prod.fst).Nodup) →
      (runBooks reg bs dst out).Pairwise PDist := by
  induction bs with
  | nil => intro dst out processed h1 _ _ _; exact h1
  | cons b rest ih =>
    obtain ⟨B, cs⟩ := b
    intro dst out processed h1 h2 h3 h4
    have hBnot : B ∉ processed := h3 (B, cs) (List.mem_cons_self _ _)
    have hseen0 : ∀ q ∈ out, q.book = B →
        (q.speaker, q.text) ∈ (⟨[], dst, out⟩ : PState).seen := by
      intro q hq hbk
      exact absurd (hbk ▸ h2 q hq) hBnot
    obtain ⟨f1, f2⟩ := fold_inv reg B cs ⟨[], dst, out⟩ h1 hseen0
    rw [List.map_cons, List.nodup_cons] at h4
    refine ih _ _ (B :: processed) f1 ?_ ?_ h4.2
    · intro q hq
      rcases f2 q hq with h | h
      · exact List.mem_cons_of_mem _ (h2 q h)
      · rw [h]
        exact List.mem_cons_self _ _
    · intro b' hb'
      rw [List.mem_cons]
      rintro (hEq | hMem)
      · exact h4.1 (List.mem_map.mpr ⟨b', hb', hEq⟩)
      · exact h3 b' (List.mem_cons_of_mem _ hb') hMem

/-- What passing `is_valid_quote` guarantees: at least four words and equal
bracket counts (the first two rejection tests). -/
theorem valid_props (t : String) (h : isValidQuote t = true) :
    4 ≤ wordCount t ∧ t.data.count '[' = t.data.count ']' := by
  unfold isValidQuote at h
  split at h
  · exact absurd h (by simp)
  · rename_i hwc
    split at h
    · exact absurd h (by simp)
    · rename_i hbr
      constructor
      · omega
      · rw [Bool.or_eq_true, not_or] at hbr
        have := hbr.2
        simpa using this

/-- The attribution-conflict behaviour of one candidate step, when the
deduplicator already stores a quote with the same text key, the same book and
a different speaker: a strictly lower-confidence candidate is discarded with
no state change at all, while a candidate of greater or equal confidence
replaces the stored entry and is appended to the output (the earlier emission
stays in the output list). -/
theorem pstep_conflict (reg : List CharEntry) (B : String) (st : PState) (c : Candidate)
    (ex : Quote) (rs : String)
    (hv : isValidQuote (cleanQuote c.rawQuote) = true)
    (hr : resolveSpeaker reg c.rawSpeaker c.ctxBefore = some rs)
    (hs : (rs, cleanQuote c.rawQuote) ∉ st.seen)
    (hl : dlookup st.dst (pyStrip (cleanQuote c.rawQuote)) = some ex)
    (hb : ex.book = B) (hsp : ex.speaker ≠ rs) :
    ((mkQuote reg B c rs).confidence < ex.confidence →
      isDuplicate st.dst (mkQuote reg B c rs) = (true, st.dst)
      ∧ pstep reg B st c = st)
    ∧ (ex.confidence ≤ (mkQuote reg B c rs).confidence →
      isDuplicate st.dst (mkQuote reg B c rs) =
        (false, dinsert st.dst (pyStrip (cleanQuote c.rawQuote)) (mkQuote reg B c rs))
      ∧ pstep reg B st c =
        ⟨(rs, cleanQuote c.rawQuote) :: st.seen,
         dinsert st.dst (pyStrip (cleanQuote c.rawQuote)) (mkQuote reg B c rs),
         st.out ++ [mkQuote reg B c rs]⟩) := by
  have hkey : pyStrip (mkQuote reg B c rs).text = pyStrip (cleanQuote c.rawQuote) := rfl
  constructor
  · intro hlt
    have hdup : isDuplicate st.dst (mkQuote reg B c rs) = (true, st.dst) := by
      unfold isDuplicate
      dsimp only
      rw [hkey, hl]
      dsimp only
      rw [if_neg (fun hcon => hsp hcon.1),
        if_pos (show ex.book = (mkQuote reg B c rs).book from hb), if_pos hlt]
    refine ⟨hdup, ?_⟩
    unfold pstep
    rw [if_pos hv, hr]
    dsimp only
    rw [if_neg hs, hdup]
    rfl
  · intro hge
    have hdup : isDuplicate st.dst (mkQuote reg B c rs) =
        (false, dinsert st.dst (pyStrip (cleanQuote c.rawQuote)) (mkQuote reg B c rs)) := by
      unfold isDuplicate
      dsimp only
      rw [hkey, hl]
      dsimp only
      rw [if_neg (fun hcon => hsp hcon.1),
        if_pos (show ex.book = (mkQuote reg B c rs).book from hb),
        if_neg (not_lt.mpr hge)]
    refine ⟨hdup, ?_⟩
    unfold pstep
    rw [if_pos hv, hr]
    dsimp only
    rw [if_neg hs, hdup]
    rfl

/-! ## Claim theorems -/

/-- Claim C1 (code bug, evaluation at the failing input): on the spec's own
addressee-correction example the quote text does start with the addressee
shape, but the context `Tomyris sent a herald to Cyrus and said:` contains no
name immediately followed by a speech verb, so the correction finds nothing
and falls back to the caller's strategy-3 guess, which is the addressee
`Cyrus`; the resolved speaker is `Cyrus`, not `Tomyris` as the claim
requires. -/
theorem c1_addressee_code_eval :
    eaStartName c1Text.data = some "Cyrus".data
    ∧ scanNameVerb false c1Ctx.data = []
    ∧ eaComputeSpeaker c1Ctx.data = "Cyrus".data
    ∧ eaFinalSpeaker c1Text.data c1Ctx.data = "Cyrus".data
    ∧ "Cyrus".data ≠ "Tomyris".data := by decide

/-- Claim C2, counterexample: when the higher-confidence conflict candidate
arrives second, the final emitted list keeps BOTH quotes — the earlier
lower-confidence emission is never retracted — so the emitted set does not
keep exactly the higher-confidence one regardless of order. -/
theorem c2_conflict_counterexample :
    processBooks sampleReg [("I", [c2candA, c2candB])] = [c2quoteA, c2quoteB]
    ∧ c2quoteA.text = c2quoteB.text
    ∧ c2quoteA.book = c2quoteB.book
    ∧ c2quoteA.speaker ≠ c2quoteB.speaker
    ∧ c2quoteA.confidence < c2quoteB.confidence := by decide

/-- Claim C2 (amended): with a stored same-text same-book different-speaker
quote, a strictly lower-confidence candidate is discarded with no state
change, while a candidate of greater or equal confidence replaces the stored
deduplicator entry and is emitted additionally — appended after the earlier
emission, which stays in the output list. -/
theorem c2_conflict_amended (reg : List CharEntry) (B : String) (st : PState)
    (c : Candidate) (ex : Quote) (rs : String)
    (hv : isValidQuote (cleanQuote c.rawQuote) = true)
    (hr : resolveSpeaker reg c.rawSpeaker c.ctxBefore = some rs)
    (hs : (rs, cleanQuote c.rawQuote) ∉ st.seen)
    (hl : dlookup st.dst (pyStrip (cleanQuote c.rawQuote)) = some ex)
    (hb : ex.book = B) (hsp : ex.speaker ≠ rs) :
    ((mkQuote reg B c rs).confidence < ex.confidence → pstep reg B st c = st)
    ∧ (ex.confidence ≤ (mkQuote reg B c rs).confidence →
        pstep reg B st c =
          ⟨(rs, cleanQuote c.rawQuote) :: st.seen,
           dinsert st.dst (pyStrip (cleanQuote c.rawQuote)) (mkQuote reg B c rs),
           st.out ++ [mkQuote reg B c rs]⟩) := by
  obtain ⟨f, g⟩ := pstep_conflict reg B st c ex rs hv hr hs hl hb hsp
  exact ⟨fun h => (f h).2, fun h => (g h).2⟩

theorem c2_conflict_witness :
    ((mkQuote sampleReg "I" c2candB "Solon").confidence < c2quoteA.confidence →
      pstep sampleReg "I" c2state c2candB = c2state)
    ∧ (c2quoteA.confidence ≤ (mkQuote sampleReg "I" c2candB "Solon").confidence →
      pstep sampleReg "I" c2state c2candB =
        ⟨("Solon", cleanQuote c2candB.rawQuote) :: c2state.seen,
         dinsert c2state.dst (pyStrip (cleanQuote c2candB.rawQuote))
           (mkQuote sampleReg "I" c2candB "Solon"),
         c2state.out ++ [mkQuote sampleReg "I" c2candB "Solon"]⟩) :=
  c2_conflict_amended sampleReg "I" c2state c2candB c2quoteA "Solon"
    (by decide) (by decide) (by decide) (by decide) (by decide) (by decide)

/-- Claim C3, counterexample: the character set includes variations, so the
registered variation `Kroisos` is returned unchanged by the direct-match step
— it is neither canonicalized to `Croesus` when a speech cue is present, nor
rejected when no cue is present. -/
theorem c3_variation_counterexample :
    (⟨"Croesus", ["Kroisos"]⟩ : CharEntry) ∈ sampleReg
    ∧ "Kroisos" ∈ (⟨"Croesus", ["Kroisos"]⟩ : CharEntry).variations
    ∧ hasIndicator "and he said unto him" = true
    ∧ resolveSpeaker sampleReg "Kroisos" "and he said unto him" = some "Kroisos"
    ∧ hasIndicator "" = false
    ∧ resolveSpeaker sampleReg "Kroisos" "" = some "Kroisos"
    ∧ ("Kroisos" : String) ≠ "Croesus" := by decide

/-- Claim C3 (amended): every registered variation is a member of the
combined character set, so `resolve_speaker` returns it unchanged through the
direct-match step, on every context — the context-validated variation branch
is unreachable for exact variation tokens. -/
theorem c3_variation_amended (reg : List CharEntry) (e : CharEntry) (v ctx : String)
    (he : e ∈ reg) (hv : v ∈ e.variations) :
    resolveSpeaker reg v ctx = some v := by
  unfold resolveSpeaker
  rw [if_pos (variation_mem_charactersOf he hv)]

theorem c3_variation_witness :
    resolveSpeaker sampleReg "Kroisos" "a context with no cue words" = some "Kroisos" :=
  c3_variation_amended sampleReg ⟨"Croesus", ["Kroisos"]⟩ "Kroisos"
    "a context with no cue words" (by decide) (by decide)

/-- Claim C4, counterexample: on a text with zero book-header matches,
`split_into_books` returns normally with an empty book collection instead of
raising any error (no `SegmentationError` exists in the code). -/
theorem c4_segmentation_counterexample :
    splitBooks "hello there good friends" [] = Except.ok [] := rfl

/-- Claim C4 (amended): book segmentation never fails — zero header matches
produce a successful return with an empty book collection, and every input
produces a successful return. -/
theorem c4_segmentation_amended :
    (∀ text : String, splitBooks text [] = Except.ok [])
    ∧ (∀ (text : String) (ms : List HeaderMatch), ∃ bs, splitBooks text ms = Except.ok bs) :=
  ⟨fun _ => rfl, fun _ _ => ⟨_, rfl⟩⟩

/-- Claim C5, counterexample: a cleaned quote beginning with a lowercase
letter passes `is_valid_quote` (no lowercase-first check exists in it) and is
emitted; the uppercase-first-character invariant fails on the emitted set. -/
theorem c5_invariants_counterexample :
    processBooks sampleReg [("I", [c5cand])] = [c5quote]
    ∧ c5quote.text.data.head? = some 'a'
    ∧ 'a'.isUpper = false := by decide

/-- Claim C5 (amended): every Quote in the final emitted set has at least
four words and equal bracket counts (both enforced by `is_valid_quote`);
the uppercase-first-character part of the claim is refuted by the
counterexample. -/
theorem c5_invariants_amended (reg : List CharEntry) (bs : List (String × List Candidate))
    (q : Quote) (hq : q ∈ processBooks reg bs) :
    4 ≤ wordCount q.text ∧ q.text.data.count '[' = q.text.data.count ']' :=
  valid_props q.text
    (runBooks_valid reg bs [] [] (fun q' hq' => absurd hq' (List.not_mem_nil q')) q hq)

theorem c5_invariants_witness :
    4 ≤ wordCount c5quote.text
    ∧ c5quote.text.data.count '[' = c5quote.text.data.count ']' :=
  c5_invariants_amended sampleReg [("I", [c5cand])] c5quote (by decide)

/-- Claim C6 (confirmed): the final emitted set of one processing run is
pairwise distinct on the exact (speaker, text, book) triple whenever the
processed book identifiers are distinct (as `process_books` guarantees), and
the concrete cross-book scenario emits two distinct Quotes for identical text
in Book I and Book II rather than discarding the second. -/
theorem c6_uniqueness_crossbook :
    (∀ (reg : List CharEntry) (bs : List (String × List Candidate)),
        (bs.map Prod.fst).Nodup → (processBooks reg bs).Pairwise PDist)
    ∧ processBooks sampleReg c6books = [c6quoteI, c6quoteII]
    ∧ c6quoteI.text = c6quoteII.text
    ∧ c6quoteI.speaker = c6quoteII.speaker
    ∧ c6quoteI.book ≠ c6quoteII.book := by
  refine ⟨?_, by decide, by decide, by decide, by decide⟩
  intro reg bs hnd
  exact runBooks_pairwise reg bs [] [] [] List.Pairwise.nil
    (fun q hq => absurd hq (List.not_mem_nil q))
    (fun b _ => List.not_mem_nil b.1) hnd

theorem c6_uniqueness_witness :
    (processBooks sampleReg c6books).Pairwise PDist :=
  c6_uniqueness_crossbook.1 sampleReg c6books (by decide)

/-- Claim C7, counterexample: the delayed-attribution weights are
0.85, 0.82, 0.80, 0.78, 0.75, 0.75, 0.8, 0.85 in catalog order — the step
from the basic-fallback tier (0.75) to the conversation-marker tier (0.8)
increases, so the sequence is not monotonically decreasing. -/
theorem c7_catalog_counterexample :
    (delayedAttributionCatalog.map Prod.fst) =
      ["delayed_attribution_action", "delayed_attribution_state",
       "delayed_attribution_temporal", "delayed_indirect_speech",
       "group_dialogue", "delayed_attribution_basic",
       "conversation_marker", "response_pattern"]
    ∧ (delayedAttributionCatalog.map Prod.snd)[5]? = some (mkRat 75 100)
    ∧ (delayedAttributionCatalog.map Prod.snd)[6]? = some (mkRat 80 100)
    ∧ mkRat 75 100 < mkRat 80 100 := by decide

/-- Claim C7 (amended): the first six tiers (action, state, temporal,
indirect-speech, group, basic-fallback) are non-increasing, every one of the
eight weights is strictly below 0.9, but the final two tiers
(conversation-marker 0.8, response-pattern 0.85) rise again, so the full
sequence is not monotonically decreasing. -/
theorem c7_catalog_amended :
    ((delayedAttributionCatalog.map Prod.snd).getD 1 0 ≤
      (delayedAttributionCatalog.map Prod.snd).getD 0 0
    ∧ (delayedAttributionCatalog.map Prod.snd).getD 2 0 ≤
      (delayedAttributionCatalog.map Prod.snd).getD 1 0
    ∧ (delayedAttributionCatalog.map Prod.snd).getD 3 0 ≤
      (delayedAttributionCatalog.map Prod.snd).getD 2 0
    ∧ (delayedAttributionCatalog.map Prod.snd).getD 4 0 ≤
      (delayedAttributionCatalog.map Prod.snd).getD 3 0
    ∧ (delayedAttributionCatalog.map Prod.snd).getD 5 0 ≤
      (delayedAttributionCatalog.map Prod.snd).getD 4 0)
    ∧ (∀ w ∈ delayedAttributionCatalog.map Prod.snd, w < mkRat 90 100)
    ∧ (delayedAttributionCatalog.map Prod.snd) =
      [mkRat 85 100, mkRat 82 100, mkRat 80 100, mkRat 78 100,
       mkRat 75 100, mkRat 75 100, mkRat 80 100, mkRat 85 100] := by decide

theorem c7_catalog_witness : mkRat 85 100 < mkRat 90 100 :=
  c7_catalog_amended.2.1 (mkRat 85 100) (by decide)

/-- Claim C8 (confirmed): whenever `_merge_split_quotes` merges a
continuation fragment into the stored quote from the same speaker and book
(with context lengths within tolerance), the merged Quote's confidence is the
maximum of the two inputs — so at least either input — and the merged text
contains both input texts. -/
theorem c8_merge_monotone (st : DState) (q e : Quote) (k : String) (rest : DState)
    (hst : st = (k, e) :: rest)
    (hs : e.speaker = q.speaker) (hb : e.book = q.book)
    (hctx : ((e.context_before.length : ℤ) - (q.context_before.length : ℤ)).natAbs < 1000) :
    mergeSplitQuotes st q = (true, dinsert st (mergedOf e q).text (mergedOf e q))
    ∧ (mergedOf e q).confidence = max e.confidence q.confidence
    ∧ e.confidence ≤ (mergedOf e q).confidence
    ∧ q.confidence ≤ (mergedOf e q).confidence
    ∧ e.text.data <:+: (mergedOf e q).text.data
    ∧ q.text.data <:+: (mergedOf e q).text.data := by
  subst hst
  refine ⟨?_, rfl, le_max_left _ _, le_max_right _ _, ?_, ?_⟩
  · unfold mergeSplitQuotes
    dsimp only
    rw [if_pos ⟨hs, hb, hctx⟩]
  · exact ⟨[], ("\n\n" ++ q.text).data, by simp [mergedOf, String.data_append]⟩
  · exact ⟨(e.text ++ "\n\n").data, [], by simp [mergedOf, String.data_append]⟩

theorem c8_merge_witness :
    mergeSplitQuotes [("First part of the speech", c8stored)] c8frag =
      (true, dinsert [("First part of the speech", c8stored)]
        (mergedOf c8stored c8frag).text (mergedOf c8stored c8frag))
    ∧ (mergedOf c8stored c8frag).confidence = max c8stored.confidence c8frag.confidence
    ∧ c8stored.confidence ≤ (mergedOf c8stored c8frag).confidence
    ∧ c8frag.confidence ≤ (mergedOf c8stored c8frag).confidence
    ∧ c8stored.text.data <:+: (mergedOf c8stored c8frag).text.data
    ∧ c8frag.text.data <:+: (mergedOf c8stored c8frag).text.data :=
  c8_merge_monotone [("First part of the speech", c8stored)] c8frag c8stored
    "First part of the speech" [] rfl (by decide) (by decide) (by decide)

/-- Claim C9 (confirmed): a token that is a canonical registry name is in the
character set, so `resolve_speaker` returns it unchanged through the
direct-match step, and since the raw token then equals the resolved speaker,
the penalty step of `extract_quotes` leaves the confidence untouched (neither
the ×0.95 variation penalty nor the ×0.85 context-guess penalty fires). -/
theorem c9_idempotent_resolution (reg : List CharEntry) (e : CharEntry) (ctx : String)
    (conf : ℚ) (he : e ∈ reg) :
    resolveSpeaker reg e.name ctx = some e.name
    ∧ speakerPenalty reg e.name e.name conf = conf := by
  constructor
  · unfold resolveSpeaker
    rw [if_pos (name_mem_charactersOf he)]
  · unfold speakerPenalty
    exact if_neg (fun h => h rfl)

theorem c9_idempotent_witness :
    resolveSpeaker sampleReg "Croesus" "then he spoke as follows" = some "Croesus"
    ∧ speakerPenalty sampleReg "Croesus" "Croesus" 1 = 1 :=
  c9_idempotent_resolution sampleReg ⟨"Croesus", ["Kroisos"]⟩
    "then he spoke as follows" 1 (by decide)

/-- Claim C10 (confirmed): on an equal-confidence attribution conflict (same
text key, same book, different speaker, equal confidence), `is_duplicate`
replaces the stored entry with the newest candidate and returns false, and
the extraction step then emits the candidate in addition to the earlier
emission, which remains in the output list. -/
theorem c10_equal_confidence (reg : List CharEntry) (B : String) (st : PState)
    (c : Candidate) (ex : Quote) (rs : String)
    (hv : isValidQuote (cleanQuote c.rawQuote) = true)
    (hr : resolveSpeaker reg c.rawSpeaker c.ctxBefore = some rs)
    (hs : (rs, cleanQuote c.rawQuote) ∉ st.seen)
    (hl : dlookup st.dst (pyStrip (cleanQuote c.rawQuote)) = some ex)
    (hb : ex.book = B) (hsp : ex.speaker ≠ rs)
    (hc : ex.confidence = (mkQuote reg B c rs).confidence) :
    isDuplicate st.dst (mkQuote reg B c rs) =
      (false, dinsert st.dst (pyStrip (cleanQuote c.rawQuote)) (mkQuote reg B c rs))
    ∧ pstep reg B st c =
      ⟨(rs, cleanQuote c.rawQuote) :: st.seen,
       dinsert st.dst (pyStrip (cleanQuote c.rawQuote)) (mkQuote reg B c rs),
       st.out ++ [mkQuote reg B c rs]⟩ :=
  (pstep_conflict reg B st c ex rs hv hr hs hl hb hsp).2 (le_of_eq hc)

theorem c10_equal_confidence_witness :
    isDuplicate c10state.dst (mkQuote sampleReg "I" c2candB "Solon") =
      (false, dinsert c10state.dst (pyStrip (cleanQuote c2candB.rawQuote))
        (mkQuote sampleReg "I" c2candB "Solon"))
    ∧ pstep sampleReg "I" c10state c2candB =
      ⟨("Solon", cleanQuote c2candB.rawQuote) :: c10state.seen,
       dinsert c10state.dst (pyStrip (cleanQuote c2candB.rawQuote))
         (mkQuote sampleReg "I" c2candB "Solon"),
       c10state.out ++ [mkQuote sampleReg "I" c2candB "Solon"]⟩ :=
  c10_equal_confidence sampleReg "I" c10state c2candB c10stored "Solon"
    (by decide) (by decide) (by decide) (by decide) (by decide) (by decide) (by decide)
